/-
Verification of the lumina job-execution core against its specification.

Each section shallowly embeds one part of the source (file and line
references are given next to every definition) and the theorems at the end
settle the spec's testable properties over those embeddings.

Modelling conventions:
- Python lists become Lean `List`s; dicts with known keys become structures,
  dicts with open key sets become association lists `List (String × JVal)`.
- A Python function that can raise becomes a function into `Except String α`
  (the `String` is the exception message); a caller's `try/except` becomes a
  `match` on that value.
- Python integers become `Nat`/`Int` (they are arbitrary precision, so no
  wrap-around modelling is needed); exact rational arithmetic is used where
  IEEE-754 arithmetic is provably exact at the relevant inputs, and a
  faithful binary64 round-to-nearest-even model is used where it is not
  (see `rnddiv`/`mul100` below).
-/
import Mathlib

set_option maxHeartbeats 1000000

attribute [local semireducible] Rat.add Rat.sub Rat.mul Rat.inv

namespace Lumina

/-!
## Batch creation (src/lumina/jobs/framework.py, `JobExecutor._create_batches`)

Python (lines 235-246):
  `return [items[i : i + batch_size] for i in range(0, len(items), batch_size)]`

`rangeStep start stop step` models Python's `range(start, stop, step)` for a
non-negative step (a zero step raises ValueError in Python; we return the
empty list, and every theorem below assumes `0 < step`).  The slice
`items[i : i + batch_size]` is `(items.drop i).take batch_size`.
-/

def rangeStepAux (step : Nat) : Nat → Nat → Nat → List Nat
  | 0, _, _ => []
  | fuel + 1, start, stop =>
    if 0 < step ∧ start < stop then
      start :: rangeStepAux step fuel (start + step) stop
    else
      []

def rangeStep (start stop step : Nat) : List Nat :=
  rangeStepAux step (stop - start) start stop

def createBatches (batchSize : Nat) (items : List α) : List (List α) :=
  (rangeStep 0 items.length batchSize).map (fun i => (items.drop i).take batchSize)

/-!
## The executor run loop (src/lumina/jobs/framework.py, `JobExecutor`)

`JVal` models the JSON-like values stored in the open-keyed result dicts
(`process` results and the `finalize` output merged into the run result).
-/

inductive JVal where
  | num : Int → JVal
  | str : String → JVal
deriving DecidableEq, Repr

/-- A `process` result dict: an association list of string keys to values. -/
abbrev JDict := List (String × JVal)

/-- `r.get(k, default)` for an integer-valued field (finalize_scan uses
`r.get("size_bytes", 0)`). -/
def jGetInt (r : JDict) (k : String) (dflt : Int) : Int :=
  match r.lookup k with
  | some (JVal.num n) => n
  | _ => dflt

/-- Result of `JobExecutor._process_batch` (framework.py lines 248-282):
`{"results": …, "errors": …, "success_count": …, "error_count": …}`.
An errors entry `{"item": item, "error": str(e)}` is modelled as the pair
`(item, message)`. -/
structure BatchResult (α : Type) where
  results : List JDict
  errors : List (α × String)
  successCount : Nat
  errorCount : Nat
deriving DecidableEq

/-- One iteration of the per-item loop in `_process_batch`: a raising
`process` call (modelled by `Except.error`) appends to `errors` and bumps
`error_count`; a successful one appends to `results` and bumps
`success_count`.  The `try/except Exception` around the call is the `match`:
no per-item exception escapes, every item lands in one of the two buckets. -/
def processItemStep (process : α → Except String JDict) (acc : BatchResult α)
    (item : α) : BatchResult α :=
  match process item with
  | Except.ok r =>
      { acc with results := acc.results ++ [r], successCount := acc.successCount + 1 }
  | Except.error e =>
      { acc with errors := acc.errors ++ [(item, e)], errorCount := acc.errorCount + 1 }

/-- `JobExecutor._process_batch` (framework.py lines 248-282). -/
def processBatch (process : α → Except String JDict) (batch : List α) :
    BatchResult α :=
  batch.foldl (processItemStep process) ⟨[], [], 0, 0⟩

/-- The dict returned by `JobExecutor.run` (framework.py lines 164-233),
instrumented with the list of batches the run created (phase 2); when the
discovery result is empty the code returns `_empty_result()` before
`_create_batches` is ever called, so `batchesCreated = []` there.
`extra` holds the keys merged in from `finalize` (`result.update(...)`,
line 228); the four base keys are the four named fields. -/
structure RunOutcome (α : Type) where
  successCount : Nat
  errorCount : Nat
  totalItems : Nat
  errors : List (α × String)
  extra : JDict
  batchesCreated : List (List α)
deriving DecidableEq

/-- `JobExecutor._empty_result` (framework.py lines 284-296):
`{"success_count": 0, "error_count": 0, "total_items": 0, "errors": []}` —
note that it carries no further keys (no "no items" note) and that
`finalize` is not consulted. -/
def emptyResult (α : Type) : RunOutcome α := ⟨0, 0, 0, [], [], []⟩

/-- `JobExecutor.run` (framework.py lines 164-233).  `items` is the value
returned by `self.job.discover(catalog_id)`.  The thread pool collects
batch results in completion order; the counts are sums and therefore
order-independent, so we model the submission order (one admissible
schedule) — none of the claims below depend on the order of the
concatenated `errors`/`results` lists across batches. -/
def runExecutor (batchSize : Nat) (items : List α)
    (process : α → Except String JDict)
    (finalize : Option (List JDict → JDict)) : RunOutcome α :=
  if items.isEmpty then emptyResult α
  else
    let batches := createBatches batchSize items
    let outs := batches.map (processBatch process)
    { successCount := (outs.map (·.successCount)).sum
      errorCount := (outs.map (·.errorCount)).sum
      totalItems := items.length
      errors := (outs.map (·.errors)).flatten
      extra := match finalize with
        | some f => f (outs.map (·.results)).flatten
        | none => []
      batchesCreated := batches }

/-- `finalize_scan` (src/lumina/jobs/definitions/scan.py lines 155-177):
aggregates `{"total_files", "total_images", "total_videos",
"total_size_bytes"}` over the per-file process results. -/
def scanFinalize (results : List JDict) : JDict :=
  let totalSize := (results.map (fun r => jGetInt r "size_bytes" 0)).sum
  let images := (results.filter
    (fun r => decide (r.lookup "file_type" = some (JVal.str "image")))).length
  let videos := (results.filter
    (fun r => decide (r.lookup "file_type" = some (JVal.str "video")))).length
  [("total_files", JVal.num results.length),
   ("total_images", JVal.num images),
   ("total_videos", JVal.num videos),
   ("total_size_bytes", JVal.num totalSize)]

/-- The concrete `process` of spec scenario 2 ("mixed per-item outcomes"):
`process("bad")` raises, every other item succeeds with an empty dict. -/
def procMixed : String → Except String JDict := fun s =>
  if s = "bad" then Except.error "boom" else Except.ok []

/-- Claim vocabulary: `process` succeeds on this item. -/
def procSucceeds (process : α → Except String JDict) (i : α) : Bool :=
  match process i with
  | Except.ok _ => true
  | Except.error _ => false

/-- Claim vocabulary: the `{"item": i, "error": str(e)}` entry a raising
item contributes (and `none` for a succeeding one). -/
def procErrEntry (process : α → Except String JDict) (i : α) :
    Option (α × String) :=
  match process i with
  | Except.ok _ => none
  | Except.error e => some (i, e)

/-- Claim vocabulary: the result dict a succeeding item contributes. -/
def procOkResult (process : α → Except String JDict) (i : α) : Option JDict :=
  match process i with
  | Except.ok r => some r
  | Except.error _ => none

/-!
## Perceptual-hash distance (src/lumina/analysis/hashing.py)

`hamming_distance` (lines 21-39) raises ValueError when the two strings
have different lengths, parses both as base-16 integers (`int(h, 16)`, which
also raises ValueError on a non-hex or empty string), and returns
`bin(h1 ^ h2).count("1")`, i.e. the population count of the XOR.

`hexDigitVal` models the base-16 digit set.  (CPython's `int(s, 16)`
additionally tolerates surrounding whitespace, a sign, a `0x` prefix and
`_` separators; the hashes this code compares are produced by
`format(n, "016x")` and contain plain hex digits only, and every claim
quantifies over hex strings, so the embedding covers exactly the hex-digit
alphabet.)  Errors are modelled by `Option`: `none` is a raised ValueError.
-/

def hexDigitVal (c : Char) : Option Nat :=
  let n := c.toNat
  if 48 ≤ n ∧ n ≤ 57 then some (n - 48)        -- '0'..'9'
  else if 97 ≤ n ∧ n ≤ 102 then some (n - 87)  -- 'a'..'f', value 10..15
  else if 65 ≤ n ∧ n ≤ 70 then some (n - 55)   -- 'A'..'F', value 10..15
  else none

def parseHexCore (acc : Nat) : List Char → Option Nat
  | [] => some acc
  | c :: cs =>
    match hexDigitVal c with
    | some d => parseHexCore (16 * acc + d) cs
    | none => none

/-- `int(s, 16)`: ValueError (`none`) on the empty string or a non-digit. -/
def parseHex (s : String) : Option Nat :=
  if s.data.isEmpty then none else parseHexCore 0 s.data

/-- `bin(n).count("1")`: the number of 1 bits of a non-negative integer.
The fuel argument (`n` itself suffices, the value halves every step) keeps
the recursion structural. -/
def popCountAux : Nat → Nat → Nat
  | 0, _ => 0
  | fuel + 1, n => if n = 0 then 0 else n % 2 + popCountAux fuel (n / 2)

def popCount (n : Nat) : Nat := popCountAux n n

/-- `hamming_distance` (hashing.py lines 21-39). -/
def hammingDistance (h1 h2 : String) : Option Nat :=
  if h1.length ≠ h2.length then none
  else
    match parseHex h1, parseHex h2 with
    | some a, some b => some (popCount (a ^^^ b))
    | _, _ => none

/-- Python's `int(x)` on a real number: truncation toward zero. -/
def pyTrunc (q : ℚ) : ℤ := if 0 ≤ q then ⌊q⌋ else ⌈q⌉

/-- `similarity_score` (hashing.py lines 158-170) with the default
`hash_bits = 64`: `int(100 * (1 - distance / hash_bits))`.

The Python arithmetic runs on binary64 floats, but for any distance `d`
with `0 ≤ d ≤ 2^46` every intermediate is exactly representable
(`d / 64` and `1 - d / 64` are dyadic with denominator `2^6` and
`100 * (1 - d / 64)` is dyadic with denominator `2^4`, all of magnitude
below `2^53`), so exact rational arithmetic followed by `int(...)`
truncation is a faithful model on the whole range the hashes can reach. -/
def similarityScore (h1 h2 : String) : Option ℤ :=
  (hammingDistance h1 h2).map
    (fun d : Nat => pyTrunc (100 * (1 - (d : ℚ) / 64)))

/-- A hex string: non-empty and made of base-16 digits (the strings
`format(n, "016x")` produces are exactly the 16-character ones). -/
def isHexStr (s : String) : Bool :=
  !s.data.isEmpty && s.data.all (fun c => (hexDigitVal c).isSome)

/-!
## The per-job retry wrapper (src/lumina/jobs/background_jobs.py)

`_is_retryable_error` (lines 105-123) lowercases `str(error)` and checks it
for the five transient substrings.  `_execute_job_with_retry`
(lines 126-171) loops `for attempt in range(MAX_RETRIES)`, sleeping
`RETRY_DELAY_SECONDS * attempt` before every retry (`attempt > 0`), and in
the `except` branch either continues (retryable and not the last attempt)
or re-raises.
-/

def RETRY_DELAY_SECONDS : Nat := 5

def retryablePatterns : List String :=
  ["connection", "timeout", "temporarily unavailable", "deadlock", "lock"]

/-- Python's `pat in s` substring test over explicit character lists. -/
def containsSub : List Char → List Char → Bool
  | [], pat => pat.isEmpty
  | c :: rest, pat => List.isPrefixOf pat (c :: rest) || containsSub rest pat

/-- `str.lower()`; the five patterns and the error messages the claims
quantify over are ASCII, where `Char.toLower` agrees with Python. -/
def lowerStr (s : String) : List Char := s.data.map Char.toLower

/-- `_is_retryable_error` (background_jobs.py lines 105-123). -/
def isRetryableError (msg : String) : Bool :=
  retryablePatterns.any (fun pat => containsSub (lowerStr msg) pat.data)

/-- The body of `_execute_job_with_retry` (background_jobs.py lines
146-171).  `f k` is the outcome of the wrapped job function on its
`k`-th invocation (0-based `attempt`), so a flaky function is a sequence of
outcomes.  The result pairs what the wrapper returns/raises with the list
of back-off sleeps it performed, in order.  `fuel` counts the loop
iterations left (`MAX_RETRIES - attempt`); the fuel-exhausted case is the
`raise last_error or Exception(...)` line after the loop, reachable only
when `MAX_RETRIES = 0`. -/
def retryLoop (maxRetries : Nat) (f : Nat → Except String β) :
    Nat → Nat → Except String β × List Nat
  | _, 0 => (Except.error "Job failed with unknown error", [])
  | attempt, fuel + 1 =>
    let sleeps := if 0 < attempt then [RETRY_DELAY_SECONDS * attempt] else []
    match f attempt with
    | Except.ok b => (Except.ok b, sleeps)
    | Except.error e =>
      if attempt < maxRetries - 1 ∧ isRetryableError e then
        let rec_ := retryLoop maxRetries f (attempt + 1) fuel
        (rec_.1, sleeps ++ rec_.2)
      else
        (Except.error e, sleeps)

/-- `_execute_job_with_retry` (background_jobs.py lines 126-171). -/
def executeJobWithRetry (maxRetries : Nat) (f : Nat → Except String β) :
    Except String β × List Nat :=
  retryLoop maxRetries f 0 maxRetries

/-!
## Job cancellation (src/lumina/jobs/background_jobs.py `cancel_job`,
src/lumina/api/routers/jobs_new.py `cancel_job`)

The router (jobs_new.py lines 120-139) loads the Job row, returns
HTTP 404 when absent and HTTP 400 when the status is terminal
(`("SUCCESS", "FAILURE")`), then calls the controller's
`cancel_job(job_id)` (background_jobs.py lines 268-284).  That helper
succeeds only when the job's pool future is still registered in
`_active_jobs` and `future.cancel()` returns True (the closure has not
started running); in that case it writes status FAILURE with error
`"Job cancelled by user"`.  Otherwise the router's fallback marks the row
FAILURE with error `"Cancelled by user"` — a different string.

`bgCancellable` abstracts "the future is registered and not yet running",
the one piece of Worker Pool state the branch depends on.  The database
writes are modelled as succeeding (`update_job_status` swallows storage
errors; storage availability is not part of this claim).
-/

inductive JobStatus where
  | pending | progress | success | failure
deriving DecidableEq, Repr

structure JobRow where
  status : JobStatus
  error : Option String
deriving DecidableEq, Repr

/-- `cancel_job` (background_jobs.py lines 268-284): returns whether it
cancelled, together with the Job row as it leaves it. -/
def cancelJobBg (row : JobRow) (bgCancellable : Bool) : Bool × JobRow :=
  if bgCancellable then
    (true, { status := JobStatus.failure, error := some "Job cancelled by user" })
  else
    (false, row)

/-- The DELETE `/{job_id}` router handler (jobs_new.py lines 120-139).
`Except.error n` is an HTTPException with status code `n`; `Except.ok`
carries the response message and the final Job row. -/
def routerCancelJob (row : Option JobRow) (bgCancellable : Bool) :
    Except Nat (String × JobRow) :=
  match row with
  | none => Except.error 404
  | some r =>
    if r.status = JobStatus.success ∨ r.status = JobStatus.failure then
      Except.error 400
    else
      let c := cancelJobBg r bgCancellable
      if !c.1 then
        Except.ok ("Job cancelled",
          { status := JobStatus.failure, error := some "Cancelled by user" })
      else
        Except.ok ("Job cancelled", c.2)

/-!
## Progress percent (src/lumina/jobs/progress_publisher.py line 74,
src/lumina/jobs/memory_progress.py line 68)

Both backends build the snapshot with the identical expression
`"percent": int((current / total) * 100) if total > 0 else 0`.
`current / total` is binary64 float division and is NOT always exact, so
this part of the model implements IEEE-754 binary64 round-to-nearest-even
on non-negative values in the normal range: `rnddiv num den` rounds the
rational `num / den` to 53 significant bits, `mul100` multiplies a rounded
value by 100 (exact in the integers, then re-rounded to 53 bits).  The
model is exact for `0 ≤ current ≤ 2^53` and `0 < total ≤ 2^53` (both
convert to float exactly and no overflow or subnormal can occur).  A
rounded value is a dyadic pair `(m, e)` meaning `m * 2^e` with
`m < 2^53`.
-/

/-- Number of binary digits, structurally (fuel `n` suffices). -/
def bitLenAux : Nat → Nat → Nat
  | 0, _ => 0
  | fuel + 1, n => if n = 0 then 0 else bitLenAux fuel (n / 2) + 1

def bitLen (n : Nat) : Nat := bitLenAux n n

/-- Quotient and remainder of `num * 2^k / den` (for negative `k` the
power of two divides the denominator instead), returned with the effective
denominator so ties can be detected exactly. -/
def scaledDiv (num den : Nat) (k : Int) : Nat × Nat × Nat :=
  if 0 ≤ k then
    let a := num * 2 ^ k.toNat
    (a / den, a % den, den)
  else
    let b := den * 2 ^ (-k).toNat
    (num / b, num % b, b)

/-- Round `q` to `q + 1` on remainder above a half, to the even neighbour
on an exact tie (`2r = b`), down otherwise. -/
def roundHalfEven (q r b : Nat) : Nat :=
  if 2 * r < b then q
  else if b < 2 * r then q + 1
  else if q % 2 = 0 then q else q + 1

/-- Binary64 rounding of the non-negative rational `num / den` (den > 0):
the nearest (ties-to-even) dyadic `(m, e)` with `2^52 ≤ m < 2^53`
(or `(0, 0)` for zero). -/
def rnddiv (num den : Nat) : Nat × Int :=
  if num = 0 then (0, 0)
  else
    let k0 : Int := 53 + (bitLen den : Int) - (bitLen num : Int)
    let first := scaledDiv num den k0
    let pick : Nat × Nat × Nat × Int :=
      if first.1 < 2 ^ 53 then (first.1, first.2.1, first.2.2, k0)
      else
        let second := scaledDiv num den (k0 - 1)
        (second.1, second.2.1, second.2.2, k0 - 1)
    let m := roundHalfEven pick.1 pick.2.1 pick.2.2.1
    if m = 2 ^ 53 then (2 ^ 52, -pick.2.2.2 + 1) else (m, -pick.2.2.2)

/-- Binary64 multiplication of the dyadic `(m, e)` by the exact integer
100: the integer product re-rounded to 53 significant bits. -/
def mul100 (m : Nat) (e : Int) : Nat × Int :=
  let p := m * 100
  let len := bitLen p
  if len ≤ 53 then (p, e)
  else
    let s := len - 53
    let m2 := roundHalfEven (p / 2 ^ s) (p % 2 ^ s) (2 ^ s)
    if m2 = 2 ^ 53 then (2 ^ 52, e + s + 1) else (m2, e + s)

/-- `int(x)` on the non-negative dyadic `(m, e)`: truncation toward zero. -/
def dyadicTrunc (m : Nat) (e : Int) : Nat :=
  if 0 ≤ e then m * 2 ^ e.toNat else m / 2 ^ (-e).toNat

/-- `int((current / total) * 100) if total > 0 else 0`
(progress_publisher.py line 74 and memory_progress.py line 68 verbatim),
under the binary64 model above, for `current ≥ 0` (the claim's domain). -/
def pyPercent (current total : Int) : Int :=
  if 0 < total then
    let d := rnddiv current.toNat total.toNat
    let p := mul100 d.1 d.2
    (dyadicTrunc p.1 p.2 : Int)
  else 0

/-- The `progress_data` dict both backends store and notify
(progress_publisher.py lines 71-76, memory_progress.py lines 65-70):
`{"current": …, "total": …, "percent": …, "message": …}`. -/
def progressData (current total : Int) (message : String) : JDict :=
  [("current", JVal.num current),
   ("total", JVal.num total),
   ("percent", JVal.num (pyPercent current total)),
   ("message", JVal.str message)]

/-!
## Progress publishing (src/lumina/jobs/progress_publisher.py)

`publish_progress` (lines 41-115) and `publish_completion` (lines 118-177)
share one control-flow skeleton:

    try:
        session = SessionLocal()
        try:
            payload = json.dumps(...)   # may raise on unserializable extras
            session.execute(INSERT ...) # store the snapshot
            session.execute(NOTIFY ...) # emit the notification
            session.commit()
            return True
        except SQLAlchemyError as e:
            session.rollback(); raise e
        finally:
            session.close()
    except Exception as e:
        logger.warning(...); return False

`PubBehavior` records, for each of the five steps, whether it raises
(`some msg`) or succeeds (`none`) — the environment the call runs in.
The inner `except SQLAlchemyError` only rolls back and re-raises, so every
raising step funnels into the outer handler; the model keeps the raised
message and lets the outer `match` turn it into `false`.  A commit that
raises rolls the INSERT and NOTIFY back, so "stored" and "notified" below
mean durably stored/emitted, i.e. committed.
-/

structure PubBehavior where
  sessionFail : Option String
  payloadFail : Option String
  insertFail : Option String
  notifyFail : Option String
  commitFail : Option String

/-- The inner `try` body shared by both publishers: the first raising step
wins, otherwise the snapshot is stored, the notification emitted and the
transaction committed. -/
def pubInner (b : PubBehavior) : Except String Unit :=
  match b.payloadFail with
  | some e => Except.error e
  | none =>
    match b.insertFail with
    | some e => Except.error e
    | none =>
      match b.notifyFail with
      | some e => Except.error e
      | none =>
        match b.commitFail with
        | some e => Except.error e
        | none => Except.ok ()

/-- All five steps succeeded: the snapshot is durably stored and the
notification emitted. -/
def pubAllOk (b : PubBehavior) : Bool :=
  b.sessionFail.isNone && b.payloadFail.isNone && b.insertFail.isNone &&
    b.notifyFail.isNone && b.commitFail.isNone

/-- `publish_progress` (progress_publisher.py lines 41-115) as observed by
its caller: `Except.error` would be an escaping exception; the outer
`except Exception` turns every failure into `Except.ok false`. -/
def publishProgress (b : PubBehavior) (current total : Int)
    (message : String) : Except String Bool :=
  match b.sessionFail with
  | some _ => Except.ok false
  | none =>
    let _payload := progressData current total message
    match pubInner b with
    | Except.ok _ => Except.ok true
    | Except.error _ => Except.ok false

/-- `publish_completion` (progress_publisher.py lines 118-177): identical
skeleton, the payload carries `result` / `{error: …}` instead of a
progress snapshot (its construction cannot raise; `payloadFail` still
models `json.dumps` on an unserializable `result`). -/
def publishCompletion (b : PubBehavior) (state : String)
    (result : Option JDict) (error : Option String) : Except String Bool :=
  match b.sessionFail with
  | some _ => Except.ok false
  | none =>
    let _payload : JDict :=
      if state = "SUCCESS" then
        match result with
        | some r => r
        | none => []
      else
        match error with
        | some e => [("error", JVal.str e)]
        | none => []
    match pubInner b with
    | Except.ok _ => Except.ok true
    | Except.error _ => Except.ok false

/-!
## Burst detection (src/lumina/analysis/bursts.py)

An image dict carries `id`, `timestamp` (a datetime or None) and `camera`
(a string or None).  Timestamps are modelled as exact rationals (a Python
datetime is an integer count of microseconds, and the claims compare the
differences the code computes; the float `total_seconds()` conversion is
exact for the microsecond-resolution spans compared here).  `camera` feeds
`img.get("camera") or "unknown"`, where both a missing camera and the
falsy empty string normalize to `"unknown"`.
-/

structure BurstImage where
  id : Nat
  timestamp : Option ℚ
  camera : Option String
deriving DecidableEq, Repr

/-- `img.get("camera") or "unknown"` (bursts.py line 40). -/
def normCamera (img : BurstImage) : String :=
  match img.camera with
  | none => "unknown"
  | some c => if c = "" then "unknown" else c

/-- The sort key of bursts.py line 51, `x.get("timestamp") or datetime.min`:
a missing timestamp sorts before every real one (no real timestamp of the
model equals `datetime.min`, so the tie between `None` and a literal
`datetime.min` cannot arise). -/
def keyLe (a b : BurstImage) : Bool :=
  match a.timestamp, b.timestamp with
  | none, _ => true
  | some _, none => false
  | some x, some y => decide (x ≤ y)

/-- The burst dict built by `_make_burst` (bursts.py lines 105-132).  The
Python dict stores `image_ids = [img["id"] for img in images]`; the model
keeps the underlying image list (so properties of the grouped images can
be stated) — the stored ids are exactly `images.map BurstImage.id`. -/
structure Burst where
  images : List BurstImage
  startTime : ℚ
  endTime : ℚ
  durationSeconds : ℚ
  camera : Option String
deriving DecidableEq, Repr

/-- `_make_burst` (bursts.py lines 105-132): `None` when fewer than two
images, fewer than two timestamps, or a span shorter than `min_duration`. -/
def mkBurst (imgs : List BurstImage) (minDuration : ℚ) : Option Burst :=
  match imgs with
  | [] => none
  | i0 :: rest =>
    if (i0 :: rest).length < 2 then none
    else
      let ts := (i0 :: rest).filterMap (fun i => i.timestamp)
      if ts.length < 2 then none
      else
        match ts.min?, ts.max? with
        | some a, some b =>
          if b - a < minDuration then none
          else some ⟨i0 :: rest, a, b, b - a, i0.camera⟩
        | _, _ => none

/-- The loop of `_find_sequences` (bursts.py lines 71-102).  `current` is
the accumulating run and `prev` the image at index `i - 1` (always the last
element of `current`); a pair with a missing timestamp gets `gap = inf`,
which fails `gap <= gap_threshold` for every finite threshold. -/
def findSeqGo (g : ℚ) (m : Nat) (dur : ℚ) :
    List BurstImage → BurstImage → List BurstImage → List Burst
  | current, _, [] =>
    if m ≤ current.length then (mkBurst current dur).toList else []
  | current, prev, x :: rest =>
    let gapOk : Bool :=
      match prev.timestamp, x.timestamp with
      | some tp, some tc => decide (tc - tp ≤ g)
      | _, _ => false
    if gapOk then
      findSeqGo g m dur (current ++ [x]) x rest
    else
      (if m ≤ current.length then (mkBurst current dur).toList else []) ++
        findSeqGo g m dur [x] x rest

/-- `_find_sequences` (bursts.py lines 61-102).  (From `detect_bursts` the
argument list is a per-camera bucket and never empty; Python would raise
IndexError on `sorted_images[0]` for an empty list with `min_size = 0`, a
case `detect_bursts` cannot produce — the model returns `[]`.) -/
def findSequences (sortedImages : List BurstImage) (g : ℚ) (m : Nat)
    (dur : ℚ) : List Burst :=
  if sortedImages.length < m then []
  else
    match sortedImages with
    | [] => []
    | x :: rest => findSeqGo g m dur [x] x rest

/-- `detect_bursts` (bursts.py lines 11-58): group by
`camera or "unknown"` (dict insertion order = first-occurrence order, and
each bucket keeps input order, i.e. is the filter of the input), sort each
bucket by timestamp (Python's `sorted` is stable, and a stable sort by a
total preorder has a unique result, so the stable `List.insertionSort`
computes the same list), and collect each bucket's sequences. -/
def detectBursts (images : List BurstImage) (gapThreshold : ℚ)
    (minSize : Nat) (minDuration : ℚ) : List Burst :=
  if images.length < minSize then []
  else
    let cameras := (images.map normCamera).dedup
    cameras.flatMap (fun cam =>
      let bucket := images.filter (fun i => normCamera i = cam)
      findSequences (bucket.insertionSort (fun a b => keyLe a b = true))
        gapThreshold minSize minDuration)

/-- The adjacency relation claim C9 asserts inside a group: both images
carry capture times in order at most `g` seconds apart. -/
def burstAdj (g : ℚ) (a b : BurstImage) : Prop :=
  ∃ ta tb, a.timestamp = some ta ∧ b.timestamp = some tb ∧ ta ≤ tb ∧ tb - ta ≤ g

/-- Concrete input refuting the raw-camera reading of C9: a `None`-camera
image and a literal `"unknown"`-camera image land in the same bucket. -/
def mixedCameraImages : List BurstImage :=
  [⟨0, some 0, none⟩, ⟨1, some 1, some "unknown"⟩, ⟨2, some 2, none⟩]

/-!
# Theorems

Helper lemmas first, then one theorem per claim (with its witness or
counterexample where required).
-/

theorem rangeStepAux_congr {step : Nat} :
    ∀ f1 f2 start stop, stop - start ≤ f1 → stop - start ≤ f2 →
      rangeStepAux step f1 start stop = rangeStepAux step f2 start stop := by
  intro f1
  induction f1 with
  | zero =>
    intro f2 start stop h1 _
    cases f2 with
    | zero => rfl
    | succ m =>
      have : ¬(0 < step ∧ start < stop) := by omega
      simp [rangeStepAux, this]
  | succ n ih =>
    intro f2 start stop h1 h2
    cases f2 with
    | zero =>
      have : ¬(0 < step ∧ start < stop) := by omega
      simp [rangeStepAux, this]
    | succ m =>
      by_cases hg : 0 < step ∧ start < stop
      · simp only [rangeStepAux, if_pos hg]
        exact congrArg _ (ih m (start + step) stop (by omega) (by omega))
      · simp [rangeStepAux, hg]

theorem rangeStep_eq_nil {start stop step : Nat}
    (h : ¬(0 < step ∧ start < stop)) : rangeStep start stop step = [] := by
  unfold rangeStep
  cases hc : stop - start with
  | zero => rfl
  | succ m => simp [rangeStepAux, h]

theorem rangeStep_eq_cons {start stop step : Nat} (hs : 0 < step)
    (h : start < stop) :
    rangeStep start stop step = start :: rangeStep (start + step) stop step := by
  unfold rangeStep
  cases hc : stop - start with
  | zero => omega
  | succ m =>
    simp only [rangeStepAux, if_pos (And.intro hs h)]
    exact congrArg _ (rangeStepAux_congr m (stop - (start + step))
      (start + step) stop (by omega) (by omega))

theorem rangeStep_shift (k n a : Nat) (hk : 0 < k) :
    rangeStep (a + k) n k = (rangeStep a (n - k) k).map (· + k) := by
  by_cases h : a + k < n
  · rw [rangeStep_eq_cons hk h, rangeStep_eq_cons hk (by omega : a < n - k),
      List.map_cons]
    exact congrArg (List.cons (a + k)) (rangeStep_shift k n (a + k) hk)
  · rw [rangeStep_eq_nil (by omega), rangeStep_eq_nil (by omega)]
    rfl
termination_by n - a
decreasing_by omega

theorem createBatches_nil (bs : Nat) : createBatches bs ([] : List α) = [] := by
  simp [createBatches, rangeStep_eq_nil]

theorem createBatches_cons {bs : Nat} (hbs : 0 < bs) {items : List α}
    (h : items ≠ []) :
    createBatches bs items =
      items.take bs :: createBatches bs (items.drop bs) := by
  have hlen : 0 < items.length := List.length_pos.mpr h
  unfold createBatches
  rw [rangeStep_eq_cons hbs hlen, List.map_cons, List.drop_zero,
    rangeStep_shift bs items.length 0 hbs, List.map_map,
    List.length_drop]
  refine congrArg (List.cons (items.take bs)) (List.map_congr_left ?_)
  intro i _
  simp only [Function.comp_apply, List.drop_drop]
  rw [Nat.add_comm]

theorem createBatches_flatten {bs : Nat} (hbs : 0 < bs) (items : List α) :
    (createBatches bs items).flatten = items := by
  rcases eq_or_ne items [] with h | h
  · subst h
    simp [createBatches_nil]
  · rw [createBatches_cons hbs h, List.flatten_cons,
      createBatches_flatten hbs (items.drop bs), List.take_append_drop]
termination_by items.length
decreasing_by
  have : 0 < items.length := List.length_pos.mpr h
  simp only [List.length_drop]
  omega

theorem createBatches_length {bs : Nat} (hbs : 0 < bs) (items : List α) :
    (createBatches bs items).length = (items.length + bs - 1) / bs := by
  rcases eq_or_ne items [] with h | h
  · subst h
    rw [createBatches_nil]
    simp only [List.length_nil]
    rw [Nat.div_eq_of_lt (by omega)]
  · have hpos : 0 < items.length := List.length_pos.mpr h
    rw [createBatches_cons hbs h, List.length_cons,
      createBatches_length hbs (items.drop bs), List.length_drop]
    rcases Nat.lt_or_ge items.length bs with hlt | hge
    · rw [show items.length - bs = 0 from by omega]
      rw [Nat.div_eq_of_lt (by omega),
        @Nat.div_eq_of_lt_le 1 bs (items.length + bs - 1) (by omega) (by omega)]
    · have h1 : items.length - bs + bs - 1 = items.length - 1 := by omega
      have h2 : items.length + bs - 1 = items.length - 1 + bs := by omega
      rw [h1, h2, Nat.add_div_right _ hbs]
termination_by items.length
decreasing_by
  have : 0 < items.length := List.length_pos.mpr h
  simp only [List.length_drop]
  omega

theorem createBatches_dropLast {bs : Nat} (hbs : 0 < bs) (items : List α) :
    ∀ b ∈ (createBatches bs items).dropLast, b.length = bs := by
  rcases eq_or_ne items [] with h | h
  · subst h
    simp [createBatches_nil]
  · rw [createBatches_cons hbs h]
    rcases eq_or_ne (items.drop bs) [] with hd | hd
    · rw [hd, createBatches_nil]
      simp
    · have hge : bs ≤ items.length := by
        by_contra hlt
        exact hd (List.drop_eq_nil_of_le (by omega))
      have htail : createBatches bs (items.drop bs) ≠ [] := by
        intro hnil
        have := createBatches_flatten hbs (items.drop bs)
        rw [hnil] at this
        exact hd this.symm
      rw [List.dropLast_cons_of_ne_nil htail]
      intro b hb
      rcases List.mem_cons.mp hb with rfl | hb
      · rw [List.length_take]
        exact min_eq_left hge
      · exact createBatches_dropLast hbs (items.drop bs) b hb
termination_by items.length
decreasing_by
  have : 0 < items.length := List.length_pos.mpr h
  simp only [List.length_drop]
  omega

/-- C1: for every item list and every `batch_size > 0`,
`_create_batches` returns batches whose concatenation is the original
list, every batch but possibly the last has exactly `batch_size` items,
and the batch count is `ceil(len(items) / batch_size)`
(`= (len + bs - 1) / bs` in integer arithmetic). -/
theorem C1_create_batches_partition {α : Type} (bs : Nat) (items : List α)
    (hbs : 0 < bs) :
    (createBatches bs items).flatten = items ∧
      (∀ b ∈ (createBatches bs items).dropLast, b.length = bs) ∧
      (createBatches bs items).length = (items.length + bs - 1) / bs :=
  ⟨createBatches_flatten hbs items, createBatches_dropLast hbs items,
    createBatches_length hbs items⟩

theorem processBatch_foldl {α : Type} (process : α → Except String JDict)
    (batch : List α) (acc : BatchResult α) :
    batch.foldl (processItemStep process) acc =
      ⟨acc.results ++ batch.filterMap (procOkResult process),
        acc.errors ++ batch.filterMap (procErrEntry process),
        acc.successCount + (batch.filter (procSucceeds process)).length,
        acc.errorCount +
          (batch.filter (fun i => !procSucceeds process i)).length⟩ := by
  induction batch generalizing acc with
  | nil => simp
  | cons x xs ih =>
    rw [List.foldl_cons, ih]
    cases hx : process x with
    | ok r =>
      have h1 : procOkResult process x = some r := by simp [procOkResult, hx]
      have h2 : procErrEntry process x = none := by simp [procErrEntry, hx]
      have h3 : procSucceeds process x = true := by simp [procSucceeds, hx]
      simp only [processItemStep, hx, List.filterMap_cons, List.filter_cons,
        h1, h2, h3, BatchResult.mk.injEq]
      refine ⟨by simp, by simp, by simp; omega, by simp⟩
    | error e =>
      have h1 : procOkResult process x = none := by simp [procOkResult, hx]
      have h2 : procErrEntry process x = some (x, e) := by
        simp [procErrEntry, hx]
      have h3 : procSucceeds process x = false := by simp [procSucceeds, hx]
      simp only [processItemStep, hx, List.filterMap_cons, List.filter_cons,
        h1, h2, h3, BatchResult.mk.injEq]
      refine ⟨by simp, by simp, by simp, by simp; omega⟩

theorem filterLengthSplit {α : Type} (p : α → Bool) (l : List α) :
    (l.filter p).length + (l.filter (fun i => !p i)).length = l.length := by
  induction l with
  | nil => rfl
  | cons x xs ih =>
    cases hx : p x <;> simp [List.filter_cons, hx] <;> omega

theorem C1_create_batches_partition_witness :
    0 < 2 ∧
      ((createBatches 2 [10, 20, 30, 40, 50]).flatten = [10, 20, 30, 40, 50] ∧
        (∀ b ∈ (createBatches 2 [10, 20, 30, 40, 50]).dropLast, b.length = 2) ∧
        (createBatches 2 [10, 20, 30, 40, 50]).length = (5 + 2 - 1) / 2) :=
  ⟨by decide, C1_create_batches_partition 2 [10, 20, 30, 40, 50] (by decide)⟩

/-- C4: per-item processing traps every exception `process` raises — a
raising item contributes its `{item, error}` entry to `errors` and bumps
`error_count`, a succeeding item bumps `success_count`, and every item
lands in exactly one of the two buckets (`success + error = len(batch)`;
`processBatch` is total, so no per-item exception escapes the batch).  In
particular the single batch `["good", "bad", "good2"]` where only
`process("bad")` raises runs to `success_count 2, error_count 1,
total_items 3` with exactly the one errors entry for `"bad"`. -/
theorem C4_process_batch_traps_item_errors :
    (∀ (α : Type) (process : α → Except String JDict) (batch : List α),
        (processBatch process batch).successCount =
            (batch.filter (procSucceeds process)).length ∧
          (processBatch process batch).errorCount =
            (batch.filter (fun i => !procSucceeds process i)).length ∧
          (processBatch process batch).errors =
            batch.filterMap (procErrEntry process) ∧
          (processBatch process batch).successCount +
              (processBatch process batch).errorCount = batch.length) ∧
      runExecutor 10 ["good", "bad", "good2"] procMixed none =
        { successCount := 2, errorCount := 1, totalItems := 3,
          errors := [("bad", "boom")], extra := [],
          batchesCreated := [["good", "bad", "good2"]] } := by
  constructor
  · intro α process batch
    have h := processBatch_foldl process batch ⟨[], [], 0, 0⟩
    unfold processBatch
    rw [h]
    refine ⟨by simp, by simp, by simp, ?_⟩
    simpa using filterLengthSplit (procSucceeds process) batch
  · decide

/-- C3 (amended): when `discover` returns zero items, `run` returns
`_empty_result()` — `{success_count: 0, error_count: 0, total_items: 0,
errors: []}` — at once, for every `process` and `finalize`: no batches are
created and `finalize` is never invoked (so the result carries neither a
"no items" note nor the scan finalize totals); the background wrapper then
marks the job SUCCESS on this normal return. -/
theorem C3_empty_discovery_short_circuit {α : Type} (batchSize : Nat)
    (process : α → Except String JDict)
    (finalize : Option (List JDict → JDict)) :
    runExecutor batchSize ([] : List α) process finalize = emptyResult α :=
  rfl

/-- C3 counterexample: running the scan-shaped job (its `finalize` is
`finalize_scan`, `batch_size = 500`) on an empty discovery yields a result
whose extra key set is empty — it does not report
`total_files: 0` (nor the other finalize totals, nor any "no items"
note), contradicting the claim's expected result. -/
theorem C3_empty_discovery_counterexample :
    (runExecutor 500 ([] : List String) (fun _ => Except.ok [])
        (some scanFinalize)).extra = [] ∧
      (runExecutor 500 ([] : List String) (fun _ => Except.ok [])
          (some scanFinalize)).extra.lookup "total_files" = none ∧
      (none : Option JVal) ≠ some (JVal.num 0) := by
  decide

theorem hexDigitVal_lt {c : Char} {d : Nat} (h : hexDigitVal c = some d) :
    d < 16 := by
  simp only [hexDigitVal] at h
  split at h
  · injection h with h
    omega
  · split at h
    · injection h with h
      omega
    · split at h
      · injection h with h
        omega
      · cases h

theorem parseHexCore_lt :
    ∀ (l : List Char) (acc v : Nat), parseHexCore acc l = some v →
      v < (acc + 1) * 16 ^ l.length := by
  intro l
  induction l with
  | nil =>
    intro acc v h
    simp only [parseHexCore, Option.some_inj] at h
    simp [← h]
  | cons c cs ih =>
    intro acc v h
    simp only [parseHexCore] at h
    cases hd : hexDigitVal c with
    | none => rw [hd] at h; cases h
    | some d =>
      rw [hd] at h
      have hb := ih (16 * acc + d) v h
      have hd16 : d < 16 := hexDigitVal_lt hd
      calc v < (16 * acc + d + 1) * 16 ^ cs.length := hb
        _ ≤ ((acc + 1) * 16) * 16 ^ cs.length :=
          Nat.mul_le_mul_right _ (by omega)
        _ = (acc + 1) * 16 ^ (c :: cs).length := by
          rw [List.length_cons, pow_succ]
          ring

theorem parseHex_lt {s : String} {v : Nat} (h : parseHex s = some v) :
    v < 16 ^ s.length := by
  unfold parseHex at h
  split at h
  · cases h
  · have hb := parseHexCore_lt s.data 0 v h
    have hlen : s.length = s.data.length := rfl
    rw [hlen]
    simpa using hb

theorem parseHexCore_isSome :
    ∀ (l : List Char), (∀ c ∈ l, (hexDigitVal c).isSome) →
      ∀ acc, ∃ v, parseHexCore acc l = some v := by
  intro l
  induction l with
  | nil => intro _ acc; exact ⟨acc, rfl⟩
  | cons c cs ih =>
    intro h acc
    have hc := h c (List.mem_cons_self c cs)
    cases hd : hexDigitVal c with
    | none => rw [hd] at hc; cases hc
    | some d =>
      obtain ⟨v, hv⟩ := ih (fun x hx => h x (List.mem_cons_of_mem c hx))
        (16 * acc + d)
      exact ⟨v, by simp [parseHexCore, hd, hv]⟩

theorem parseHex_isSome {s : String} (h : isHexStr s = true) :
    ∃ v, parseHex s = some v := by
  unfold isHexStr at h
  simp only [Bool.and_eq_true, Bool.not_eq_true'] at h
  obtain ⟨hne, hall⟩ := h
  obtain ⟨v, hv⟩ := parseHexCore_isSome s.data
    (fun c hc => by simpa using List.all_eq_true.mp hall c hc) 0
  exact ⟨v, by simp [parseHex, hne, hv]⟩

theorem popCountAux_le :
    ∀ (fuel n k : Nat), n ≤ fuel → n < 2 ^ k → popCountAux fuel n ≤ k := by
  intro fuel
  induction fuel with
  | zero =>
    intro n k h1 _
    have : n = 0 := by omega
    subst this
    simp [popCountAux]
  | succ m ih =>
    intro n k h1 h2
    by_cases hz : n = 0
    · simp [popCountAux, hz]
    · simp only [popCountAux, if_neg hz]
      have hk : k ≠ 0 := by
        intro hk0
        subst hk0
        simp at h2
        omega
      obtain ⟨j, rfl⟩ : ∃ j, k = j + 1 := ⟨k - 1, by omega⟩
      have hdiv : n / 2 < 2 ^ j := by
        apply Nat.div_lt_of_lt_mul
        calc n < 2 ^ (j + 1) := h2
          _ = 2 * 2 ^ j := pow_succ' 2 j
      have := ih (n / 2) j (by omega) hdiv
      have hmod : n % 2 < 2 := Nat.mod_lt n (by omega)
      omega

theorem popCount_le {n k : Nat} (h : n < 2 ^ k) : popCount n ≤ k :=
  popCountAux_le n n k (Nat.le_refl n) h

/-- `int(100 * (1 - d / 64))` equals the integer floor
`(100 * (64 - d)) / 64` for every distance `d ≤ 64`. -/
theorem pyTrunc_sim (d : Nat) (hd : d ≤ 64) :
    pyTrunc (100 * (1 - (d : ℚ) / 64)) =
      ((100 * (64 - d) / 64 : Nat) : Int) := by
  have hq : (100 : ℚ) * (1 - (d : ℚ) / 64) =
      ((100 * (64 - d) : ℕ) : ℚ) / ((64 : ℕ) : ℚ) := by
    push_cast [Nat.cast_sub hd]
    ring
  have h0 : (0 : ℚ) ≤ 100 * (1 - (d : ℚ) / 64) := by
    rw [hq]
    positivity
  unfold pyTrunc
  rw [if_pos h0, hq]
  set A : Nat := 100 * (64 - d) with hA
  rw [Int.floor_eq_iff]
  constructor
  · rw [le_div_iff₀ (by norm_num : (0:ℚ) < ((64:ℕ):ℚ))]
    exact_mod_cast Nat.div_mul_le_self A 64
  · rw [div_lt_iff₀ (by norm_num : (0:ℚ) < ((64:ℕ):ℚ))]
    have hmod := Nat.div_add_mod A 64
    have hlt : A % 64 < 64 := Nat.mod_lt A (by omega)
    push_cast
    have : (A : ℚ) < ((A / 64 : ℕ) : ℚ) * 64 + 64 := by
      exact_mod_cast Nat.lt_of_lt_of_le (by omega)
        (Nat.le_refl ((A / 64) * 64 + 64))
    calc (A : ℚ) < ((A / 64 : ℕ) : ℚ) * 64 + 64 := this
      _ = (((A / 64 : ℕ) : ℚ) + 1) * 64 := by ring

/-- C2 (amended): for 64-bit hex strings the Hamming distance is
`popcount(xor(h1, h2))` (not `64 - popcount`), and the similarity score is
the floor `100 * (64 - d) / 64` (equivalently `100 - ceil(100 d / 64)`,
not `100 - floor(100 d / 64)`); equal strings score 100 and all-bit-flipped
strings score 0. -/
theorem C2_hamming_and_similarity (h1 h2 : String) (v1 v2 : Nat)
    (hl1 : h1.length = 16) (hl2 : h2.length = 16)
    (hp1 : parseHex h1 = some v1) (hp2 : parseHex h2 = some v2) :
    hammingDistance h1 h2 = some (popCount (v1 ^^^ v2)) ∧
      similarityScore h1 h2 =
        some ((100 * (64 - popCount (v1 ^^^ v2)) / 64 : Nat) : Int) ∧
      (h1 = h2 → similarityScore h1 h2 = some 100) ∧
      (v1 ^^^ v2 = 2 ^ 64 - 1 → similarityScore h1 h2 = some 0) := by
  have hlen : ¬h1.length ≠ h2.length := by omega
  have hham : hammingDistance h1 h2 = some (popCount (v1 ^^^ v2)) := by
    simp [hammingDistance, hlen, hp1, hp2]
  have hv1 : v1 < 2 ^ 64 := by
    have := parseHex_lt hp1
    rw [hl1] at this
    calc v1 < 16 ^ 16 := this
      _ = 2 ^ 64 := by norm_num
  have hv2 : v2 < 2 ^ 64 := by
    have := parseHex_lt hp2
    rw [hl2] at this
    calc v2 < 16 ^ 16 := this
      _ = 2 ^ 64 := by norm_num
  have hdle : popCount (v1 ^^^ v2) ≤ 64 :=
    popCount_le (Nat.xor_lt_two_pow hv1 hv2)
  have hsim : similarityScore h1 h2 =
      some ((100 * (64 - popCount (v1 ^^^ v2)) / 64 : Nat) : Int) := by
    rw [similarityScore, hham, Option.map_some', pyTrunc_sim _ hdle]
  refine ⟨hham, hsim, ?_, ?_⟩
  · intro he
    subst he
    have : v1 = v2 := by
      rw [hp1] at hp2
      exact Option.some_inj.mp hp2
    subst this
    rw [hsim, Nat.xor_self]
    norm_num [popCount, popCountAux]
  · intro hx
    have h64 : popCount (2 ^ 64 - 1) = 64 := by decide
    rw [hsim, hx, h64]
    norm_num

theorem C2_hamming_and_similarity_witness :
    ("0000000000000000" : String).length = 16 ∧
      ("ffffffffffffffff" : String).length = 16 ∧
      parseHex "0000000000000000" = some 0 ∧
      parseHex "ffffffffffffffff" = some (2 ^ 64 - 1) ∧
      (hammingDistance "0000000000000000" "ffffffffffffffff" =
          some (popCount (0 ^^^ (2 ^ 64 - 1))) ∧
        similarityScore "0000000000000000" "ffffffffffffffff" =
          some ((100 * (64 - popCount (0 ^^^ (2 ^ 64 - 1))) / 64 : Nat) : Int) ∧
        ("0000000000000000" = "ffffffffffffffff" →
          similarityScore "0000000000000000" "ffffffffffffffff" = some 100) ∧
        (0 ^^^ (2 ^ 64 - 1) = 2 ^ 64 - 1 →
          similarityScore "0000000000000000" "ffffffffffffffff" = some 0)) :=
  ⟨by decide, by decide, by decide, by decide,
    C2_hamming_and_similarity "0000000000000000" "ffffffffffffffff"
      0 (2 ^ 64 - 1) (by decide) (by decide) (by decide) (by decide)⟩

/-- C2 counterexample: at `h1 = "0000000000000000"`, `h2 =
"0000000000000001"` the distance is `1`, not `64 - popcount(xor) = 63`,
and the similarity score is `98`, not `100 - floor(100 * 1 / 64) = 99`. -/
theorem C2_counterexample :
    hammingDistance "0000000000000000" "0000000000000001" = some 1 ∧
      (1 : Nat) ≠ 64 - popCount (0 ^^^ 1) ∧
      similarityScore "0000000000000000" "0000000000000001" = some 98 ∧
      (98 : Int) ≠ 100 - 100 * 1 / 64 := by
  refine ⟨by decide, by decide, by decide, by decide⟩

/-- C10: on hex strings, `hamming_distance` raises ValueError exactly when
the two arguments differ in length, and on equal lengths it returns the
popcount of the XOR, which is at most 4 bits per hex character. -/
theorem C10_hamming_error_and_range (h1 h2 : String)
    (hx1 : isHexStr h1 = true) (hx2 : isHexStr h2 = true) :
    ((hammingDistance h1 h2).isNone ↔ h1.length ≠ h2.length) ∧
      (∀ d, hammingDistance h1 h2 = some d → d ≤ 4 * h1.length) := by
  obtain ⟨v1, hp1⟩ := parseHex_isSome hx1
  obtain ⟨v2, hp2⟩ := parseHex_isSome hx2
  by_cases hlen : h1.length = h2.length
  · have hham : hammingDistance h1 h2 = some (popCount (v1 ^^^ v2)) := by
      simp [hammingDistance, hlen, hp1, hp2]
    constructor
    · simp [hham, hlen]
    · intro d hd
      rw [hham] at hd
      have hb1 : v1 < 2 ^ (4 * h1.length) := by
        have := parseHex_lt hp1
        calc v1 < 16 ^ h1.length := this
          _ = 2 ^ (4 * h1.length) := by
            rw [pow_mul]
            norm_num
      have hb2 : v2 < 2 ^ (4 * h1.length) := by
        have := parseHex_lt hp2
        rw [← hlen] at this
        calc v2 < 16 ^ h1.length := this
          _ = 2 ^ (4 * h1.length) := by
            rw [pow_mul]
            norm_num
      have hble := popCount_le (Nat.xor_lt_two_pow hb1 hb2)
      injection hd with hd
      omega
  · have hham : hammingDistance h1 h2 = none := by
      simp [hammingDistance, hlen]
    constructor
    · simp [hham, hlen]
    · intro d hd
      rw [hham] at hd
      cases hd

theorem retryLoop_exhaust {β : Type} (f : Nat → Except String β) (M : Nat)
    (e : Nat → String) (hf : ∀ k, k < M → f k = Except.error (e k))
    (hr : ∀ k, k < M → isRetryableError (e k) = true) :
    ∀ fuel a, a + fuel = M → a < M →
      retryLoop M f a fuel =
        (Except.error (e (M - 1)),
          ((List.range' a fuel).filter (fun k => decide (0 < k))).map
            (fun k => RETRY_DELAY_SECONDS * k)) := by
  intro fuel
  induction fuel with
  | zero =>
    intro a h1 h2
    omega
  | succ n ih =>
    intro a h1 h2
    have hfa := hf a h2
    by_cases hlast : a < M - 1
    · simp only [retryLoop, hfa]
      rw [if_pos ⟨hlast, hr a h2⟩, ih (a + 1) (by omega) (by omega)]
      by_cases ha : 0 < a
      · simp only [if_pos ha, List.range'_succ, List.filter_cons,
          decide_eq_true ha, if_pos (decide_eq_true ha), List.map_cons]
        simp
      · have ha0 : a = 0 := by omega
        subst ha0
        simp [List.range'_succ, List.filter_cons]
    · have hn : n = 0 := by omega
      have ha : a = M - 1 := by omega
      subst hn
      simp only [retryLoop, hfa]
      rw [if_neg (by simp [hlast])]
      rw [ha]
      by_cases h0 : 0 < a
      · simp [List.range'_succ, List.filter_cons, ha,
          show 1 < M from by omega]
      · have ha0 : a = 0 := by omega
        simp [List.range'_succ, List.filter_cons, ha0, ← ha,
          show ¬(0 < a) from h0]

theorem rangeFilterPos (M : Nat) (hM : 0 < M) :
    ((List.range' 0 M).filter (fun k => decide (0 < k))).map
        (fun k => RETRY_DELAY_SECONDS * k) =
      (List.range' 1 (M - 1)).map (fun k => RETRY_DELAY_SECONDS * k) := by
  obtain ⟨m, rfl⟩ : ∃ m, M = m + 1 := ⟨M - 1, by omega⟩
  rw [List.range'_succ]
  simp only [List.filter_cons, decide_eq_true_eq]
  rw [if_neg (by omega)]
  congr 1
  apply List.filter_eq_self.mpr
  intro k hk
  have := List.mem_range'_1.mp hk
  simp
  omega

/-- C5: the per-job retry wrapper re-raises a non-retryable error right
after the first attempt with no back-off sleeps; when every attempt fails
with a message matching the transient patterns it performs exactly
`MAX_RETRIES` attempts, sleeping `RETRY_DELAY * attempt` before retry
number `attempt` (attempts `1 … MAX_RETRIES - 1`), and finally re-raises
the last error. -/
theorem C5_retry_wrapper_policy {β : Type} (maxRetries : Nat)
    (f : Nat → Except String β) (hM : 0 < maxRetries) :
    (∀ e0, f 0 = Except.error e0 → isRetryableError e0 = false →
      executeJobWithRetry maxRetries f = (Except.error e0, [])) ∧
      (∀ e : Nat → String,
        (∀ k, k < maxRetries → f k = Except.error (e k)) →
        (∀ k, k < maxRetries → isRetryableError (e k) = true) →
        executeJobWithRetry maxRetries f =
          (Except.error (e (maxRetries - 1)),
            (List.range' 1 (maxRetries - 1)).map
              (fun k => RETRY_DELAY_SECONDS * k))) := by
  constructor
  · intro e0 hf0 hret
    obtain ⟨m, rfl⟩ : ∃ m, maxRetries = m + 1 := ⟨maxRetries - 1, by omega⟩
    unfold executeJobWithRetry
    simp only [retryLoop, hf0]
    rw [if_neg (by simp [hret])]
    simp
  · intro e hf hr
    unfold executeJobWithRetry
    rw [retryLoop_exhaust f maxRetries e hf hr maxRetries 0 (by omega) hM,
      rangeFilterPos maxRetries hM]

theorem C5_retry_wrapper_policy_witness :
    executeJobWithRetry 3
        (fun _ : Nat => (Except.error "disk full" : Except String Unit)) =
      (Except.error "disk full", []) ∧
      executeJobWithRetry 3
          (fun _ : Nat =>
            (Except.error "Connection reset" : Except String Unit)) =
        (Except.error "Connection reset",
          [RETRY_DELAY_SECONDS * 1, RETRY_DELAY_SECONDS * 2]) := by
  constructor
  · exact (C5_retry_wrapper_policy 3
      (fun _ : Nat => (Except.error "disk full" : Except String Unit))
      (by decide)).1 "disk full" rfl (by decide)
  · have h := (C5_retry_wrapper_policy 3
      (fun _ : Nat => (Except.error "Connection reset" : Except String Unit))
      (by decide)).2 (fun _ => "Connection reset") (fun _ _ => rfl)
      (fun _ _ =>
        (by decide : isRetryableError "Connection reset" = true))
    rw [h]
    simp [List.range'_succ]

/-- C6 (amended): cancelling a terminal job (SUCCESS or FAILURE) fails
with HTTP 400 (`CannotCancelTerminal`); cancelling a PENDING or PROGRESS
job always leaves the row in FAILURE, with error `"Job cancelled by user"`
when the worker-pool future could still be cancelled and
`"Cancelled by user"` (the router's fallback string) otherwise. -/
theorem C6_cancel_terminal_and_message (r : JobRow) (bg : Bool) :
    ((r.status = JobStatus.success ∨ r.status = JobStatus.failure) →
        routerCancelJob (some r) bg = Except.error 400) ∧
      ((r.status = JobStatus.pending ∨ r.status = JobStatus.progress) →
        ∃ row, routerCancelJob (some r) bg =
            Except.ok ("Job cancelled", row) ∧
          row.status = JobStatus.failure ∧
          row.error = some (if bg then "Job cancelled by user"
            else "Cancelled by user")) := by
  constructor
  · intro ht
    simp [routerCancelJob, ht]
  · intro hnt
    have hterm : ¬(r.status = JobStatus.success ∨
        r.status = JobStatus.failure) := by
      rcases hnt with h | h <;> simp [h]
    cases bg with
    | false =>
      refine ⟨⟨JobStatus.failure, some "Cancelled by user"⟩, ?_, rfl, rfl⟩
      simp [routerCancelJob, hterm, cancelJobBg]
    | true =>
      refine ⟨⟨JobStatus.failure, some "Job cancelled by user"⟩, ?_, rfl, rfl⟩
      simp [routerCancelJob, hterm, cancelJobBg]

theorem C6_cancel_terminal_and_message_witness :
    (∃ row, routerCancelJob (some ⟨JobStatus.pending, none⟩) true =
        Except.ok ("Job cancelled", row) ∧
      row.status = JobStatus.failure ∧
      row.error = some (if true then "Job cancelled by user"
        else "Cancelled by user")) ∧
      routerCancelJob (some ⟨JobStatus.success, none⟩) true =
        Except.error 400 :=
  ⟨(C6_cancel_terminal_and_message ⟨JobStatus.pending, none⟩ true).2
      (Or.inl rfl),
    (C6_cancel_terminal_and_message ⟨JobStatus.success, none⟩ true).1
      (Or.inl rfl)⟩

/-- C6 counterexample: a PROGRESS job whose pool future is already
running (`future.cancel()` returns False) ends with error
`"Cancelled by user"`, not `"Job cancelled by user"`. -/
theorem C6_cancel_message_counterexample :
    routerCancelJob (some ⟨JobStatus.progress, none⟩) false =
        Except.ok ("Job cancelled",
          ⟨JobStatus.failure, some "Cancelled by user"⟩) ∧
      some "Cancelled by user" ≠ some "Job cancelled by user" :=
  ⟨rfl, by decide⟩

/-- C7: at `current = 29, total = 100` the float expression
`int((current / total) * 100)` yields 28 (the binary64 value of
`29 / 100` is just below `0.29` and `* 100` rounds to
`28.999999999999996`), while the specified contract
`floor(100 * current / total)` yields 29; the `total <= 0` branch does
return 0 as specified. -/
theorem C7_percent_float_rounding_bug :
    pyPercent 29 100 = 28 ∧ (100 * 29) / 100 = 29 ∧ (28 : Int) ≠ 29 ∧
      (∀ current total : Int, total ≤ 0 → pyPercent current total = 0) ∧
      (progressData 29 100 "scanning").lookup "percent" =
        some (JVal.num 28) := by
  refine ⟨by decide, by decide, by decide, ?_, by decide⟩
  intro c t ht
  simp [pyPercent, show ¬(0 < t) from by omega]

theorem C7_percent_float_rounding_bug_witness :
    (0 : Int) ≤ 0 ∧ pyPercent 5 0 = 0 :=
  ⟨by decide, C7_percent_float_rounding_bug.2.2.2.1 5 0 (by decide)⟩

/-- C8: `publish_progress` and `publish_completion` never raise to their
caller — every storage failure (session creation, payload serialization,
INSERT, NOTIFY or COMMIT) is swallowed into a `False` return — and they
return `True` exactly when all steps succeeded, i.e. the snapshot was
durably stored and the notification emitted. -/
theorem C8_publish_never_raises (b : PubBehavior) (current total : Int)
    (message state : String) (result : Option JDict)
    (error : Option String) :
    (∃ r : Bool, publishProgress b current total message = Except.ok r) ∧
      (publishProgress b current total message = Except.ok true ↔
        pubAllOk b = true) ∧
      (∃ r : Bool, publishCompletion b state result error = Except.ok r) ∧
      (publishCompletion b state result error = Except.ok true ↔
        pubAllOk b = true) := by
  obtain ⟨s, p, i, n, c⟩ := b
  cases s <;> cases p <;> cases i <;> cases n <;> cases c <;>
    simp [publishProgress, publishCompletion, pubInner, pubAllOk]

theorem C10_hamming_error_and_range_witness :
    isHexStr "ff" = true ∧ isHexStr "0f0" = true ∧
      (((hammingDistance "ff" "0f0").isNone ↔
          ("ff" : String).length ≠ ("0f0" : String).length) ∧
        (∀ d, hammingDistance "ff" "0f0" = some d →
          d ≤ 4 * ("ff" : String).length)) :=
  ⟨by decide, by decide,
    C10_hamming_error_and_range "ff" "0f0" (by decide) (by decide)⟩

theorem mkBurst_eq_some {imgs : List BurstImage} {dur : ℚ} {b : Burst}
    (h : mkBurst imgs dur = some b) : b.images = imgs ∧ 2 ≤ imgs.length := by
  cases imgs with
  | nil => cases h
  | cons i0 rest =>
    simp only [mkBurst] at h
    split at h
    · cases h
    · split at h
      · cases h
      · split at h
        · split at h
          · cases h
          · refine ⟨?_, by omega⟩
            obtain rfl := Option.some_inj.mp h.symm
            rfl
        · cases h

theorem keyLe_total (a b : BurstImage) : keyLe a b = true ∨ keyLe b a = true := by
  unfold keyLe
  cases a.timestamp with
  | none => left; rfl
  | some x =>
    cases b.timestamp with
    | none => right; rfl
    | some y =>
      rcases le_total x y with h | h
      · left; simpa using h
      · right; simpa using h

theorem keyLe_trans {a b c : BurstImage} (h1 : keyLe a b = true)
    (h2 : keyLe b c = true) : keyLe a c = true := by
  unfold keyLe at h1 h2 ⊢
  cases ha : a.timestamp with
  | none => rfl
  | some x =>
    rw [ha] at h1
    cases hb : b.timestamp with
    | none =>
      rw [hb] at h1
      exact Bool.noConfusion h1
    | some y =>
      rw [hb] at h1 h2
      cases hc : c.timestamp with
      | none =>
        rw [hc] at h2
        exact Bool.noConfusion h2
      | some z =>
        rw [hc] at h2
        exact decide_eq_true
          (le_trans (of_decide_eq_true h1) (of_decide_eq_true h2))

theorem findSeqGo_spec (g : ℚ) (m : Nat) (dur : ℚ) (cam : String) :
    ∀ (rest current : List BurstImage) (prev : BurstImage),
      current ≠ [] →
      current.getLast? = some prev →
      List.Chain' (burstAdj g) current →
      (∀ x ∈ current, normCamera x = cam) →
      (∀ x ∈ rest, normCamera x = cam) →
      List.Pairwise (fun a b => keyLe a b = true) (prev :: rest) →
      ∀ b ∈ findSeqGo g m dur current prev rest,
        m ≤ b.images.length ∧ List.Chain' (burstAdj g) b.images ∧
          ∀ x ∈ b.images, normCamera x = cam := by
  intro rest
  induction rest with
  | nil =>
    intro current prev _ _ hchain hcam _ _ b hb
    simp only [findSeqGo] at hb
    split at hb
    · rw [Option.mem_toList, Option.mem_def] at hb
      obtain ⟨himg, _⟩ := mkBurst_eq_some hb
      rw [himg]
      exact ⟨by assumption, hchain, hcam⟩
    · cases hb
  | cons x rest ih =>
    intro current prev hne hlast hchain hcam hcamrest hpair b hb
    simp only [findSeqGo] at hb
    split at hb
    case isTrue hgap =>
      have hadj : burstAdj g prev x := by
        cases hp : prev.timestamp with
        | none => rw [hp] at hgap; cases hgap
        | some tp =>
          cases hx : x.timestamp with
          | none => rw [hp, hx] at hgap; cases hgap
          | some tc =>
            rw [hp, hx] at hgap
            have hle : tp ≤ tc := by
              have hk := (List.pairwise_cons.mp hpair).1 x
                (List.mem_cons_self x rest)
              unfold keyLe at hk
              rw [hp, hx] at hk
              simpa using hk
            exact ⟨tp, tc, hp, hx, hle, by simpa using hgap⟩
      refine ih (current ++ [x]) x (by simp) (by simp) ?_ ?_
        (fun y hy => hcamrest y (List.mem_cons_of_mem x hy)) ?_ b hb
      · rw [List.chain'_append]
        refine ⟨hchain, List.chain'_singleton x, ?_⟩
        intro p hp q hq
        rw [hlast] at hp
        simp only [List.head?_cons, Option.mem_def, Option.some_inj] at hp hq
        rw [← hp, ← hq]
        exact hadj
      · intro y hy
        rcases List.mem_append.mp hy with hy | hy
        · exact hcam y hy
        · rw [List.mem_singleton.mp hy]
          exact hcamrest x (List.mem_cons_self x rest)
      · exact (List.pairwise_cons.mp hpair).2
    case isFalse hgap =>
      rw [List.mem_append] at hb
      rcases hb with hb | hb
      · split at hb
        · rw [Option.mem_toList, Option.mem_def] at hb
          obtain ⟨himg, _⟩ := mkBurst_eq_some hb
          rw [himg]
          exact ⟨by assumption, hchain, hcam⟩
        · cases hb
      · refine ih [x] x (by simp) (by simp) (List.chain'_singleton x)
          ?_ (fun y hy => hcamrest y (List.mem_cons_of_mem x hy))
          (List.pairwise_cons.mp hpair).2 b hb
        intro y hy
        rw [List.mem_singleton.mp hy]
        exact hcamrest x (List.mem_cons_self x rest)

theorem findSequences_spec (sortedImages : List BurstImage) (g : ℚ)
    (m : Nat) (dur : ℚ) (cam : String)
    (hcam : ∀ x ∈ sortedImages, normCamera x = cam)
    (hsort : List.Pairwise (fun a b => keyLe a b = true) sortedImages) :
    ∀ b ∈ findSequences sortedImages g m dur,
      m ≤ b.images.length ∧ List.Chain' (burstAdj g) b.images ∧
        ∀ x ∈ b.images, normCamera x = cam := by
  intro b hb
  unfold findSequences at hb
  split at hb
  · cases hb
  · cases sortedImages with
    | nil => cases hb
    | cons x rest =>
      exact findSeqGo_spec g m dur cam rest [x] x (by simp) (by simp)
        (List.chain'_singleton x)
        (fun y hy => by
          rw [List.mem_singleton.mp hy]
          exact hcam x (List.mem_cons_self x rest))
        (fun y hy => hcam y (List.mem_cons_of_mem x hy)) hsort b hb

/-- C9 (amended): every group burst detection produces has at least `m`
images, its images (listed in capture-time order) carry timestamps with
consecutive gaps of at most `g` seconds, and all of its images agree on
the normalized camera (`camera or "unknown"`, i.e. equal after mapping a
missing or empty camera to `"unknown"`). -/
theorem C9_burst_group_invariants (images : List BurstImage) (g : ℚ)
    (m : Nat) (dur : ℚ) (b : Burst)
    (hb : b ∈ detectBursts images g m dur) :
    m ≤ b.images.length ∧ List.Chain' (burstAdj g) b.images ∧
      ∀ x ∈ b.images, ∀ y ∈ b.images, normCamera x = normCamera y := by
  unfold detectBursts at hb
  split at hb
  · cases hb
  · rw [List.mem_flatMap] at hb
    obtain ⟨cam, _, hbs⟩ := hb
    haveI htr : IsTrans BurstImage (fun a b => keyLe a b = true) :=
      ⟨fun _ _ _ => keyLe_trans⟩
    haveI hto : IsTotal BurstImage (fun a b => keyLe a b = true) :=
      ⟨keyLe_total⟩
    have hcam : ∀ x ∈ (images.filter
        (fun i => normCamera i = cam)).insertionSort
          (fun a b => keyLe a b = true), normCamera x = cam := by
      intro x hx
      have hmem := (List.perm_insertionSort
        (fun a b => keyLe a b = true)
        (images.filter (fun i => normCamera i = cam))).mem_iff.mp hx
      exact of_decide_eq_true (List.mem_filter.mp hmem).2
    have hsort := List.sorted_insertionSort
      (fun a b => keyLe a b = true)
      (images.filter (fun i => normCamera i = cam))
    obtain ⟨h1, h2, h3⟩ := findSequences_spec _ g m dur cam hcam hsort b hbs
    exact ⟨h1, h2, fun x hx y hy => by rw [h3 x hx, h3 y hy]⟩

theorem C9_burst_group_invariants_witness :
    (⟨[⟨0, some 0, some "X"⟩, ⟨1, some 1, some "X"⟩, ⟨2, some 2, some "X"⟩],
        0, 2, 2, some "X"⟩ : Burst) ∈
      detectBursts [⟨0, some 0, some "X"⟩, ⟨1, some 1, some "X"⟩,
        ⟨2, some 2, some "X"⟩] 1 3 1 ∧
      (3 ≤ (⟨[⟨0, some 0, some "X"⟩, ⟨1, some 1, some "X"⟩,
          ⟨2, some 2, some "X"⟩], 0, 2, 2, some "X"⟩ : Burst).images.length ∧
        List.Chain' (burstAdj 1) (⟨[⟨0, some 0, some "X"⟩,
          ⟨1, some 1, some "X"⟩, ⟨2, some 2, some "X"⟩],
          0, 2, 2, some "X"⟩ : Burst).images ∧
        ∀ x ∈ (⟨[⟨0, some 0, some "X"⟩, ⟨1, some 1, some "X"⟩,
            ⟨2, some 2, some "X"⟩], 0, 2, 2, some "X"⟩ : Burst).images,
          ∀ y ∈ (⟨[⟨0, some 0, some "X"⟩, ⟨1, some 1, some "X"⟩,
            ⟨2, some 2, some "X"⟩], 0, 2, 2, some "X"⟩ : Burst).images,
            normCamera x = normCamera y) :=
  ⟨by decide,
    C9_burst_group_invariants [⟨0, some 0, some "X"⟩, ⟨1, some 1, some "X"⟩,
      ⟨2, some 2, some "X"⟩] 1 3 1 _ (by decide)⟩

/-- C9 counterexample: with gap threshold 2, minimum size 3 and minimum
duration 1, the three images with cameras `None`, `"unknown"`, `None` all
land in one burst, whose members do not share a raw `camera` value
(`None ≠ Some "unknown"`). -/
theorem C9_raw_camera_counterexample :
    ∃ b ∈ detectBursts mixedCameraImages 2 3 1,
      ∃ x ∈ b.images, ∃ y ∈ b.images, x.camera ≠ y.camera := by
  decide

end Lumina
